import Mathlib

/-!
Verification of the automation_suite repository's structured-document
extraction engine and service-integration clients.

The Python code is shallowly embedded:

* `XML` mirrors `xml.etree.ElementTree.Element`: a tag, an attribute list,
  optional text, a child list, and an optional tail (text following the
  element's end tag inside its parent).  Namespace-qualified tags and
  attribute names are stored Python-style as "\x7buri\x7dlocal".
* Parsing a raw storage string is an external library call; it is modelled
  by an oracle `fromstring : String → Option XML` passed to every function
  that parses, with `none` standing for `ET.ParseError`.
* Serialization `tostring` mirrors `ET.tostring(elem, encoding="unicode")`
  for namespace-free trees (tag and attributes written verbatim, `&`, `<`,
  `>` escaped in text, attribute values additionally escaping quote, CR,
  LF and TAB, short form `<t />` for an element with no text and no
  children, and the element's tail appended).  Prefix renaming of
  namespace-qualified tags is not modelled; no theorem below serializes a
  namespaced element.
-/

/-- An ElementTree element: tag, attributes, text, children, tail. -/
inductive XML where
  | elem (tag : String) (attrs : List (String × String)) (text : Option String)
      (children : List XML) (tail : Option String)

def XML.tag : XML → String
  | .elem t _ _ _ _ => t

def XML.attrs : XML → List (String × String)
  | .elem _ a _ _ _ => a

def XML.text : XML → Option String
  | .elem _ _ tx _ _ => tx

def XML.children : XML → List XML
  | .elem _ _ _ cs _ => cs

def XML.tail : XML → Option String
  | .elem _ _ _ _ tl => tl

/-- Python truthiness of an optional string: `None` and `""` are falsy. -/
def opt_truthy : Option String → Option String
  | some s => if s = "" then none else some s
  | none => none

/-- Python `a or b` over two optional strings (used for the attribute
fallback chains `node.attrib.get(qualified) or node.attrib.get(prefixed)`). -/
def py_or_str (a b : Option String) : Option String :=
  match a with
  | some s => if s = "" then b else some s
  | none => b

/-- Python `str.lower()` (ASCII case fold, as the code's comparisons use
it), written over the character list so that it reduces in the kernel. -/
def str_lower (s : String) : String :=
  String.mk (s.toList.map Char.toLower)

/-- Python `str.upper()` over the character list. -/
def str_upper (s : String) : String :=
  String.mk (s.toList.map Char.toUpper)

/-- Python `str.startswith(p)` over the character lists. -/
def str_starts (s p : String) : Bool :=
  p.toList.isPrefixOf s.toList

/-- Whitespace-separated words of a character list, mirroring Python
`str.split()` with no argument (runs of whitespace separate, no empties). -/
def split_ws (cs : List Char) : List (List Char) :=
  (cs.foldr
    (fun c acc =>
      if c.isWhitespace then [] :: acc
      else
        match acc with
        | [] => [[c]]
        | g :: gs => (c :: g) :: gs)
    [[]]).filter (fun g => !g.isEmpty)

/-- `automation.confluence.service._normalize_text`:
`" ".join(value.split()).strip()` for a truthy value, else `""`.  The final
`strip()` is a no-op because the joined words carry no edge whitespace, and
is therefore omitted. -/
def normalize_text : Option String → String
  | none => ""
  | some s =>
    if s = "" then ""
    else String.intercalate " " ((split_ws s.toList).map (fun g => String.mk g))

/-- `automation.confluence.service._strip_tag`: the part of the tag after
the first closing brace (`tag.split("\x7d", 1)[-1]`), `""` for an empty tag. -/
def strip_tag (t : String) : String :=
  if t = "" then ""
  else
    match t.toList.dropWhile (fun c => c != '\x7d') with
    | [] => t
    | _ :: rest => String.mk rest

mutual

/-- `Element.itertext()` joined to one string: the element's text, then for
each child its own itertext followed by the child's tail. -/
def itertext : XML → String
  | .elem _ _ tx cs _ => (tx.getD "") ++ itertext_list cs

def itertext_list : List XML → String
  | [] => ""
  | c :: rest => itertext c ++ (c.tail.getD "") ++ itertext_list rest

end

mutual

/-- `Element.iter()`: the element itself, then every descendant in
depth-first document order. -/
def iter_elems : XML → List XML
  | .elem t a tx cs tl => .elem t a tx cs tl :: iter_elems_list cs

def iter_elems_list : List XML → List XML
  | [] => []
  | c :: rest => iter_elems c ++ iter_elems_list rest

end

/-- Proper descendants of an element in document order, as matched by
`findall(".//…")`. -/
def descendants (x : XML) : List XML :=
  iter_elems_list x.children

def escape_cdata_char (c : Char) : String :=
  if c = '&' then "&amp;"
  else if c = '<' then "&lt;"
  else if c = '>' then "&gt;"
  else String.mk [c]

/-- `xml.etree.ElementTree._escape_cdata`. -/
def escape_cdata (s : String) : String :=
  String.join (s.toList.map escape_cdata_char)

def escape_attrib_char (c : Char) : String :=
  if c = '&' then "&amp;"
  else if c = '<' then "&lt;"
  else if c = '>' then "&gt;"
  else if c = '"' then "&quot;"
  else if c = '\x0d' then "&#13;"
  else if c = '\n' then "&#10;"
  else if c = '\t' then "&#09;"
  else String.mk [c]

/-- `xml.etree.ElementTree._escape_attrib`. -/
def escape_attrib (s : String) : String :=
  String.join (s.toList.map escape_attrib_char)

mutual

/-- `ET.tostring(elem, encoding="unicode")` for a namespace-free element:
start tag with attributes in stored order, short-closed when the element
has no text and no children, otherwise escaped text, serialized children
(each with its tail) and the end tag; the element's own tail follows. -/
def tostring : XML → String
  | .elem tag attrs tx cs tl =>
    let attrStr := String.join (attrs.map
      (fun p => " " ++ p.1 ++ "=\"" ++ escape_attrib p.2 ++ "\""))
    let core :=
      if (tx.getD "") = "" && cs.isEmpty then
        "<" ++ tag ++ attrStr ++ " />"
      else
        "<" ++ tag ++ attrStr ++ ">" ++ escape_cdata (tx.getD "") ++
          tostring_list cs ++ "</" ++ tag ++ ">"
    core ++ (match tl with
      | none => ""
      | some t => if t = "" then "" else escape_cdata t)

def tostring_list : List XML → String
  | [] => ""
  | c :: rest => tostring c ++ tostring_list rest

end

/-- Namespace URI registered as `ac` in `automation.confluence.service`. -/
def NS_AC : String := "http://atlassian.com/content"

/-- Namespace URI registered as `ri` in `automation.confluence.service`. -/
def NS_RI : String := "http://atlassian.com/resource/identifier"

/-- A name qualified in the `ac` namespace, Python-style: "\x7buri\x7dlocal". -/
def qual_ac (localName : String) : String :=
  "\x7b" ++ NS_AC ++ "\x7d" ++ localName

/-- `automation.confluence.service._wrap_storage`: the raw fragment wrapped
in a synthetic root that declares the two namespaces. -/
def wrap_storage (raw : String) : String :=
  "<root xmlns:ac=\"" ++ NS_AC ++ "\" xmlns:ri=\"" ++ NS_RI ++ "\">" ++ raw ++ "</root>"

/-- `automation.confluence.service._parse_storage`.  `raw = none` is a
caller passing `None`; a falsy value returns `none`, otherwise the wrapped
fragment goes to `ET.fromstring`, modelled by the oracle `fromstring`
whose `none` result stands for `ET.ParseError`. -/
def parse_storage (fromstring : String → Option XML) : Option String → Option XML
  | none => none
  | some s => if s = "" then none else fromstring (wrap_storage s)

def heading_tag_names : List String := ["h1", "h2", "h3", "h4", "h5", "h6"]

/-- Whether an element is a heading of level 1–6 after namespace strip and
lowercasing, as `_iter_headings` and `_extract_headers` test it. -/
def is_heading_elem (x : XML) : Bool :=
  heading_tag_names.contains (str_lower (strip_tag x.tag))

/-- `automation.confluence.service._iter_headings`: for every parent in
`root.iter()` order, each child that is an h1–h6 heading, as
(parent, child index, child). -/
def iter_headings (root : XML) : List (XML × Nat × XML) :=
  ((iter_elems root).map (fun parent =>
    (parent.children.enum).filterMap (fun ic =>
      if is_heading_elem ic.2 then some (parent, ic.1, ic.2) else none))).flatten

/-- `automation.confluence.service._serialize_elements`. -/
def serialize_elements (elems : List XML) : String :=
  String.join (elems.map tostring)

/-- The normalized lowercased text content of a heading node, as
`extract_heading_section` compares it. -/
def heading_norm (h : XML) : String :=
  str_lower (normalize_text (some (itertext h)))

/-- The sibling condition at which `extract_heading_section` stops
collecting: the namespace-stripped tag starts with `h`
(case-insensitively) and is exactly two characters long. -/
def is_stop_tag (x : XML) : Bool :=
  let tg := strip_tag x.tag
  str_starts (str_lower tg) "h" && tg.length == 2

/-- The tree-level body of
`automation.confluence.service.extract_heading_section`: first matching
heading in `_iter_headings` order, then the heading plus the following
siblings up to the first `is_stop_tag` sibling, serialized. -/
def extract_heading_section_root (root : XML) (title : String) : Option String :=
  let target := str_lower (normalize_text (some title))
  match (iter_headings root).find? (fun pih => heading_norm pih.2.2 == target) with
  | none => none
  | some pih =>
    some (serialize_elements
      (pih.2.2 :: ((pih.1.children.drop (pih.2.1 + 1)).takeWhile (fun s => !(is_stop_tag s)))))

/-- `automation.confluence.service.extract_heading_section`. -/
def extract_heading_section (fromstring : String → Option XML)
    (storage : Option String) (title : String) : Option String :=
  match parse_storage fromstring storage with
  | none => none
  | some root => extract_heading_section_root root title

/-- The `ac:name` attribute of a structured-macro or parameter node:
`node.attrib.get(qualified) or node.attrib.get("ac:name")`. -/
def ac_name_attr (node : XML) : Option String :=
  py_or_str (node.attrs.lookup (qual_ac "name")) (node.attrs.lookup "ac:name")

/-- `automation.confluence.service.extract_macro_contents`: every
descendant structured-macro whose name attribute equals the requested name
case-insensitively, serialized. -/
def extract_macro_contents (fromstring : String → Option XML)
    (storage : Option String) (macroName : String) : List String :=
  match parse_storage fromstring storage with
  | none => []
  | some root =>
    let wanted := str_lower macroName
    (descendants root).filterMap (fun node =>
      if node.tag == qual_ac "structured-macro" then
        match ac_name_attr node with
        | none => none
        | some na => if na = "" || str_lower na != wanted then none else some (tostring node)
      else none)

/-- Delimiters of `re.split(r"[,\n;]+", …)` in
`automation.confluence.service._collect_issue_keys_from_params`. -/
def is_issue_delim (c : Char) : Bool :=
  c == ',' || c == '\n' || c == ';'

/-- One `foldr` step of `split_issue_tokens`: the accumulator is the token
list of the suffix already processed plus a flag telling whether that
suffix starts with a delimiter (so that a run of delimiters splits once). -/
def split_issue_step (c : Char) (st : List String × Bool) : List String × Bool :=
  if is_issue_delim c then
    if st.2 then (st.1, true) else ("" :: st.1, true)
  else
    match st.1 with
    | [] => ([String.mk [c]], false)
    | t :: rest => ((String.mk [c] ++ t) :: rest, false)

/-- `re.split(r"[,\n;]+", s)`: split on maximal runs of comma, newline or
semicolon (one empty token at an edge run, none inside). -/
def split_issue_tokens (s : String) : List String :=
  (s.toList.foldr split_issue_step ([""], false)).1

/-- Python `str.strip()` over the character list (whitespace only). -/
def strip_chars (cs : List Char) : List Char :=
  ((cs.dropWhile Char.isWhitespace).reverse.dropWhile Char.isWhitespace).reverse

/-- A match of `[A-Z][A-Z0-9]+-\d+` (IGNORECASE) anchored at the start of
`cs`: an ASCII letter, a maximal nonempty alphanumeric run, `-`, a maximal
nonempty digit run.  Because `-` is not alphanumeric, the regex engine's
greedy backtracking can only succeed with the maximal runs, so the match is
this deterministic one. -/
def match_issue_at (cs : List Char) : Option (List Char) :=
  match cs with
  | [] => none
  | c :: rest =>
    if c.isAlpha then
      let run := rest.takeWhile Char.isAlphanum
      if run.isEmpty then none
      else
        match rest.drop run.length with
        | '-' :: rest2 =>
          let ds := rest2.takeWhile Char.isDigit
          if ds.isEmpty then none else some (c :: (run ++ '-' :: ds))
        | _ => none
    else none

/-- `re.search`: the leftmost match of the ticket-key pattern. -/
def search_issue_key : List Char → Option String
  | [] => none
  | c :: rest =>
    match match_issue_at (c :: rest) with
    | some m => some (String.mk m)
    | none => search_issue_key rest

/-- `automation.utils.extract_issue_key`: first case-insensitive match of
`[A-Z][A-Z0-9]+-\d+` in the stripped input, uppercased; `None` on a falsy
input or no match. -/
def extract_issue_key (raw : String) : Option String :=
  if raw = "" then none
  else
    match search_issue_key (strip_chars raw.toList) with
    | some m => some (str_upper m)
    | none => none

/-- The parameter names `_collect_issue_keys_from_params` scans, in order. -/
def issue_key_param_names : List String := ["key", "issuekey", "issuekeys", "issues"]

/-- The inner loop body of `_collect_issue_keys_from_params`: keep a
token's extracted key unless falsy or already collected. -/
def add_issue_token (ks : List String) (tok : String) : List String :=
  match extract_issue_key tok with
  | none => ks
  | some k => if ks.contains k then ks else ks ++ [k]

/-- The outer loop body of `_collect_issue_keys_from_params`: fold the
tokens of one candidate parameter's truthy value. -/
def add_issue_param (params : List (String × String)) (keys : List String)
    (cname : String) : List String :=
  match params.lookup cname with
  | none => keys
  | some raw =>
    if raw = "" then keys
    else (split_issue_tokens raw).foldl add_issue_token keys

/-- `automation.confluence.service._collect_issue_keys_from_params`: for
each candidate parameter in order, split the truthy value on delimiter
runs, keep each token's extracted key unless already seen, in encounter
order. -/
def collect_issue_keys_from_params (params : List (String × String)) : List String :=
  issue_key_param_names.foldl (add_issue_param params) []

/-- One level-1 heading entry of `_extract_headers` (level and normalized
text). -/
structure Header where
  level : Nat
  text : String
deriving DecidableEq

/-- `automation.confluence.service._extract_headers`: level-1 headings with
nonempty normalized text, in `root.iter()` order. -/
def extract_headers (root : XML) : List Header :=
  (iter_elems root).filterMap (fun node =>
    let tg := str_lower (strip_tag node.tag)
    if heading_tag_names.contains tg then
      let tx := normalize_text (some (itertext node))
      if tx = "" then none
      else
        let lvl := match tg.toList with
          | _ :: c :: _ => c.toNat - Char.toNat '0'
          | _ => 0
        if lvl == 1 then some (Header.mk lvl tx) else none
    else none)

/-- A value of the key/value mapping in `_extract_tables`: a Python `str`
or, after `_merge_key_value` turned it into a list, a `list[str]`. -/
inductive KVVal where
  | singleVal (v : String)
  | listVal (vs : List String)
deriving DecidableEq

/-- The values a `KVVal` holds. -/
def kv_values : KVVal → List String
  | .singleVal v => [v]
  | .listVal vs => vs

/-- Python dict assignment `d[k] = v` on an association list: overwrite in
place, else append. -/
def dict_set {β : Type} : List (String × β) → String → β → List (String × β)
  | [], k, v => [(k, v)]
  | (k1, v1) :: rest, k, v =>
    if k1 == k then (k, v) :: rest else (k1, v1) :: dict_set rest k v

/-- `automation.confluence.service._merge_key_value`: a new key binds the
value; an equal existing single value is kept; a different single value
becomes a two-element list; an existing list gets the value appended
(without any equality check). -/
def merge_key_value (target : List (String × KVVal)) (key value : String) :
    List (String × KVVal) :=
  match target.lookup key with
  | none => target ++ [(key, .singleVal value)]
  | some (.singleVal x) =>
    if x == value then target else dict_set target key (.listVal [x, value])
  | some (.listVal xs) => dict_set target key (.listVal (xs ++ [value]))

/-- The normalized texts of a row's direct `th`/`td` children, in order
(both kinds are counted as cells). -/
def cells_of (row : XML) : List String :=
  row.children.filterMap (fun cell =>
    let tg := str_lower (strip_tag cell.tag)
    if tg == "th" || tg == "td" then some (normalize_text (some (itertext cell)))
    else none)

/-- Whether any direct child of the row is a header cell (`th`). -/
def is_header_row (row : XML) : Bool :=
  row.children.any (fun cell => str_lower (strip_tag cell.tag) == "th")

/-- The body of `_extract_tables`' row loop: skip a row with no cells, with
a header cell, or with fewer than 2 cells; merge first-cell text as key and
second-cell text as value when the key is truthy. -/
def process_row (d : List (String × KVVal)) (row : XML) : List (String × KVVal) :=
  let cells := cells_of row
  if cells.isEmpty then d
  else if is_header_row row then d
  else if cells.length < 2 then d
  else
    match cells with
    | k :: v :: _ => if k = "" then d else merge_key_value d k v
    | _ => d

/-- `node.findall(".//tr")`: all descendants whose tag is exactly `tr`. -/
def findall_tr (tbl : XML) : List XML :=
  (descendants tbl).filter (fun n => n.tag == "tr")

/-- The key/value mapping `_extract_tables` builds for one table node. -/
def table_kv (tbl : XML) : List (String × KVVal) :=
  (findall_tr tbl).foldl process_row []

/-- One entry of `_extract_tables`' result (the `"key_value"` dict). -/
structure TableData where
  key_value : List (String × KVVal)
deriving DecidableEq

/-- `automation.confluence.service._extract_tables`: every element whose
stripped lowercased tag is `table`, reduced to its key/value mapping;
tables whose mapping is empty are dropped. -/
def extract_tables (root : XML) : List TableData :=
  (iter_elems root).filterMap (fun node =>
    if str_lower (strip_tag node.tag) == "table" then
      let kv := table_kv node
      if kv.isEmpty then none else some (TableData.mk kv)
    else none)

/-- `automation.confluence.service._extract_macro_params`: direct
`ac:parameter` children with a truthy name attribute, mapped (stripped,
lowercased name ↦ normalized text), last assignment winning. -/
def extract_macro_params (node : XML) : List (String × String) :=
  (node.children.filter (fun c => c.tag == qual_ac "parameter")).foldl
    (fun params p =>
      match ac_name_attr p with
      | none => params
      | some nm =>
        if nm = "" then params
        else dict_set params (str_lower (String.mk (strip_chars nm.toList)))
          (normalize_text (some (itertext p))))
    []

/-- The `"jira"` sub-object `_extract_macros` attaches to a jira macro. -/
structure JiraInfo where
  issue_keys : List String
  jql : List String
deriving DecidableEq

/-- One entry of `_extract_macros`' result. -/
structure MacroEntry where
  name : String
  parameters : List (String × String)
  jira : Option JiraInfo
deriving DecidableEq

/-- `automation.confluence.service._extract_macros`: every descendant
structured-macro with a truthy name attribute, with its parameter mapping;
a macro named `jira` (case-insensitively) also carries issue keys and the
truthy `jql`/`jqlquery` parameters. -/
def extract_macros (root : XML) : List MacroEntry :=
  (descendants root).filterMap (fun node =>
    if node.tag == qual_ac "structured-macro" then
      match ac_name_attr node with
      | none => none
      | some nm =>
        if nm = "" then none
        else
          let params := extract_macro_params node
          let info :=
            if str_lower nm == "jira" then
              some (JiraInfo.mk (collect_issue_keys_from_params params)
                (["jql", "jqlquery"].filterMap (fun c =>
                  match params.lookup c with
                  | none => none
                  | some raw => if raw = "" then none else some raw)))
            else none
          some (MacroEntry.mk nm params info)
    else none)

/-- The structured-object result of `extract_storage_objects`. -/
structure StorageObjects where
  titles : List Header
  tables : List TableData
  macros : List MacroEntry
deriving DecidableEq

/-- `automation.confluence.service.extract_storage_objects`: empty result
on a falsy or unparsable input, else titles, tables and macros of the
parsed tree. -/
def extract_storage_objects (fromstring : String → Option XML)
    (storage : Option String) : StorageObjects :=
  match parse_storage fromstring storage with
  | none => StorageObjects.mk [] [] []
  | some root =>
    StorageObjects.mk (extract_headers root) (extract_tables root) (extract_macros root)

/-- One entry of the `GET /rest/api/2/field` response, as
`resolve_field_id` reads it (`entry.get("name")`, `entry.get("id")`). -/
structure FieldEntry where
  name : Option String
  id : Option String
deriving DecidableEq

/-- The state of a `JiraClient` relevant to field resolution: the upstream
field list (what `GET /rest/api/2/field` would return) and the
per-instance `_field_id_by_name` cache. -/
structure JiraClientState where
  field_list : List FieldEntry
  field_id_by_name : List (String × String)
deriving DecidableEq

/-- The cache-population loop of `JiraClient.resolve_field_id`: for each
entry with a truthy lowered name and a truthy id, assign lowered name ↦ id. -/
def populate_field_cache (cache : List (String × String))
    (entries : List FieldEntry) : List (String × String) :=
  entries.foldl
    (fun c e =>
      let nm := str_lower (e.name.getD "")
      match opt_truthy e.id with
      | none => c
      | some fid => if nm = "" then c else dict_set c nm fid)
    cache

/-- `JiraClient.resolve_field_id`: falsy name resolves to nothing; a cache
hit on the lowered name returns it; a `customfield_` id or the built-ins
`summary`/`status` pass through; otherwise the full field list populates
the cache and the lowered name is looked up there. -/
def resolve_field_id (st : JiraClientState) (fieldName : String) :
    Option String × JiraClientState :=
  if fieldName = "" then (none, st)
  else
    let lowered := str_lower fieldName
    match st.field_id_by_name.lookup lowered with
    | some fid => (some fid, st)
    | none =>
      if str_starts fieldName "customfield_" || fieldName == "summary"
          || fieldName == "status" then
        (some fieldName, st)
      else
        let cache2 := populate_field_cache st.field_id_by_name st.field_list
        (cache2.lookup lowered, JiraClientState.mk st.field_list cache2)

/-- The error raised by `JiraIssue.get` when resolution exhausts all paths
(`FieldNotFoundError`), carrying the requested field and the issue key. -/
inductive JiraErr where
  | fieldNotFound (field : String) (issueKey : String)
deriving DecidableEq

/-- `JiraIssue.get`: the issue's own field mapping first; else resolve the
name to an id and read that; `FieldNotFoundError` when the resolved id is
falsy or absent from the mapping.  The returned state carries the client's
cache as the call left it. -/
def jira_issue_get (st : JiraClientState) (fields : List (String × String))
    (issueKey fieldName : String) : Except JiraErr String × JiraClientState :=
  match fields.lookup fieldName with
  | some v => (.ok v, st)
  | none =>
    let r := resolve_field_id st fieldName
    (match opt_truthy r.1 with
      | none => .error (.fieldNotFound fieldName issueKey)
      | some fid =>
        match fields.lookup fid with
        | some v => .ok v
        | none => .error (.fieldNotFound fieldName issueKey), r.2)

/-- A request the Jira client issues, for the effect trace. -/
inductive JReq where
  | reqGetIssue
  | reqGetTransitions
  | reqPostTransition (id : String)
deriving DecidableEq

/-- One entry of the `GET …/transitions` response:
`entry.get("id")`, `entry.get("name")`, `entry.get("to", ).get("name")`. -/
structure TransitionEntry where
  id : Option String
  name : Option String
  toName : Option String
deriving DecidableEq

/-- The world one `transition_issue` run touches: the issue's current
status, the available transitions, the server's effect of posting a
transition (new status by transition id), and the request log. -/
structure JiraWorld where
  issueStatus : Option String
  transitions : List TransitionEntry
  applyTransition : String → Option String
  log : List JReq

/-- `JiraClient.get_issue` restricted to what the service reads: the
status, with the request logged. -/
def world_get_issue (w : JiraWorld) : Option String × JiraWorld :=
  (w.issueStatus,
    JiraWorld.mk w.issueStatus w.transitions w.applyTransition (w.log ++ [.reqGetIssue]))

/-- `entry.get("name") or entry.get("to", \x7b\x7d).get("name")`. -/
def eff_name (e : TransitionEntry) : Option String :=
  py_or_str e.name e.toName

/-- The match test of `JiraClient.transition_issue`'s loop:
`if name and name.lower() == target_status.lower()`. -/
def code_transition_match (e : TransitionEntry) (target : String) : Bool :=
  match eff_name e with
  | some nm => nm != "" && str_lower nm == str_lower target
  | none => false

/-- The `IntegrationError` message of `JiraClient.transition_issue`. -/
def no_transition_msg (key target : String) : String :=
  "No transition to '" ++ target ++ "' found for issue " ++ key ++ "."

/-- `JiraClient.transition_issue`: fetch the transitions, take the first
whose effective name matches the target case-insensitively; raise when
none matches or that entry's id is falsy; else post the transition.  An
error carries the world as the exception leaves it (transitions fetched,
nothing posted). -/
def client_transition_issue (w : JiraWorld) (key target : String) :
    Except (String × JiraWorld) JiraWorld :=
  let w1 := JiraWorld.mk w.issueStatus w.transitions w.applyTransition
    (w.log ++ [.reqGetTransitions])
  match w1.transitions.find? (fun e => code_transition_match e target) with
  | none => .error (no_transition_msg key target, w1)
  | some e =>
    match opt_truthy e.id with
    | none => .error (no_transition_msg key target, w1)
    | some tid =>
      .ok (JiraWorld.mk (w1.applyTransition tid) w1.transitions w1.applyTransition
        (w1.log ++ [.reqPostTransition tid]))

/-- `JiraIssue.update(Status=target)` as `JiraService.transition_issue`
calls it: a falsy target returns without any client call, else the status
transition. -/
def issue_update_status (w : JiraWorld) (key target : String) :
    Except (String × JiraWorld) JiraWorld :=
  if target = "" then .ok w
  else client_transition_issue w key target

/-- `JiraService.transition_issue`: fetch the status; skip (unchanged,
`False`) when a truthy required status mismatches case-insensitively or
the status already equals the target; otherwise transition, refresh, and
report the new status (falling back to the target when falsy). -/
def service_transition_issue (w : JiraWorld) (issueKey : String)
    (requiredStatus : Option String) (targetStatus : String) :
    Except (String × JiraWorld) ((String × String × Bool) × JiraWorld) :=
  let g := world_get_issue w
  let before := g.1.getD ""
  let skipRequired : Bool :=
    match opt_truthy requiredStatus with
    | some r => str_lower before != str_lower r
    | none => false
  if skipRequired then .ok ((before, before, false), g.2)
  else if str_lower before == str_lower targetStatus then .ok ((before, before, false), g.2)
  else
    match issue_update_status g.2 issueKey targetStatus with
    | .error e => .error e
    | .ok w2 =>
      let g2 := world_get_issue w2
      let after :=
        match g2.1 with
        | some s => if s = "" then targetStatus else s
        | none => targetStatus
      .ok ((before, after, true), g2.2)

/-- One upstream response of `GET …/child/page`: the `results` entries and
whether a `_links.next` continuation link is present. -/
structure ChildResp (α : Type) where
  results : List α
  next : Bool

/-- The loop of `ConfluenceClient.get_child_pages` with a caller-supplied
limit: stop at `limit` collected entries; request `min(page_size, limit -
len(collected))` entries at the current start offset; extend; stop when the
next link is absent or the page was empty; else advance the offset by the
number of entries received.  (The `limit=None` path, an unbounded loop, is
outside the claims and not modelled.) -/
def get_child_pages_go {α : Type} (fetch : Nat → Nat → ChildResp α)
    (pageSize limit : Nat) (start : Nat) (collected : List α) : List α :=
  if h1 : limit ≤ collected.length then collected
  else
    let batch := min pageSize (limit - collected.length)
    let data := fetch start batch
    let collected2 := collected ++ data.results
    if h2 : data.results.isEmpty || !data.next then collected2
    else get_child_pages_go fetch pageSize limit (start + data.results.length) collected2
termination_by limit - collected.length
decreasing_by
  simp_wf
  have hne : data.results ≠ [] := by
    intro hh
    apply h2
    simp [hh]
  have hpos := List.length_pos.mpr hne
  simp only [data, batch] at hpos
  omega

/-- `ConfluenceClient.get_child_pages` with a caller-supplied limit. -/
def get_child_pages {α : Type} (fetch : Nat → Nat → ChildResp α)
    (pageSize limit : Nat) : List α :=
  get_child_pages_go fetch pageSize limit 0 []

/-- A well-behaved upstream serving a fixed child list `L`: a request at
offset `s` for `b` entries returns that window and reports a next link
exactly when entries remain beyond it. -/
def serve_children (L : List Nat) (s b : Nat) : ChildResp Nat :=
  ChildResp.mk ((L.drop s).take b) (decide (s + b < L.length))

theorem lookup_mem {β : Type} {d : List (String × β)} {k : String} {v : β}
    (h : d.lookup k = some v) : (k, v) ∈ d := by
  induction d with
  | nil => simp [List.lookup] at h
  | cons p rest ih =>
    rcases p with ⟨k1, v1⟩
    by_cases hk : k = k1
    · subst hk
      rw [List.lookup] at h
      simp at h
      simp [h]
    · rw [List.lookup] at h
      have hb : (k == k1) = false := beq_false_of_ne hk
      rw [hb] at h
      exact List.mem_cons_of_mem _ (ih h)

theorem dict_set_mem {β : Type} {d : List (String × β)} {k1 : String} {v1 : β}
    {k : String} {v : β} (h : (k1, v1) ∈ dict_set d k v) :
    (k1, v1) ∈ d ∨ (k1 = k ∧ v1 = v) := by
  induction d with
  | nil =>
    simp [dict_set] at h
    exact Or.inr h
  | cons p rest ih =>
    rcases p with ⟨k2, v2⟩
    rw [dict_set] at h
    by_cases hk : k2 == k
    · simp [hk] at h
      rcases h with h | h
      · exact Or.inr h
      · exact Or.inl (List.mem_cons_of_mem _ h)
    · simp [hk] at h
      rcases h with h | h
      · exact Or.inl (by simp [h])
      · rcases ih h with h2 | h2
        · exact Or.inl (List.mem_cons_of_mem _ h2)
        · exact Or.inr h2

/-- CLAIM C1: for every markup input that is empty, absent, or whose parse
fails, heading-section extraction returns the absent result, macro
extraction returns the empty list, and the structured-object extraction
returns empty titles, tables and macros.  All extraction operations are
total functions of the embedding, so none can raise on such input. -/
theorem claim_C1_malformed_input_yields_empty
    (fromstring : String → Option XML) (raw : Option String) (title mname : String)
    (h : raw = none ∨ raw = some "" ∨
      ∃ s, raw = some s ∧ fromstring (wrap_storage s) = none) :
    extract_heading_section fromstring raw title = none ∧
    extract_macro_contents fromstring raw mname = [] ∧
    extract_storage_objects fromstring raw = StorageObjects.mk [] [] [] := by
  have hp : parse_storage fromstring raw = none := by
    rcases h with h | h | ⟨s, hs, hf⟩
    · rw [h]
      rfl
    · rw [h]
      rfl
    · subst hs
      by_cases h0 : s = ""
      · simp [parse_storage, h0]
      · simp [parse_storage, h0, hf]
  refine ⟨?_, ?_, ?_⟩
  · rw [extract_heading_section, hp]
  · rw [extract_macro_contents, hp]
  · rw [extract_storage_objects, hp]

/-- Witness for C1 at a concrete unparsable input. -/
theorem claim_C1_witness :
    extract_heading_section (fun _ => none) (some "<h1>") "Overview" = none ∧
    extract_macro_contents (fun _ => none) (some "<h1>") "jira" = [] ∧
    extract_storage_objects (fun _ => none) (some "<h1>") = StorageObjects.mk [] [] [] :=
  claim_C1_malformed_input_yields_empty (fun _ => none) (some "<h1>") "Overview" "jira"
    (Or.inr (Or.inr ⟨"<h1>", rfl, rfl⟩))

/-- A row qualifies and yields the pair (k, v): at least two cells, no
header cell among the row's cells, first cell text `k`, second `v`. -/
def row_contributes (row : XML) (k v : String) : Prop :=
  2 ≤ (cells_of row).length ∧ is_header_row row = false ∧
    (cells_of row).head? = some k ∧ (cells_of row)[1]? = some v

/-- Every binding of the dict satisfies `P` on each of its values. -/
def kv_inv (P : String → String → Prop) (d : List (String × KVVal)) : Prop :=
  ∀ k val, (k, val) ∈ d → ∀ v ∈ kv_values val, P k v

theorem merge_key_value_inv {P : String → String → Prop}
    {d : List (String × KVVal)} {k v : String}
    (hd : kv_inv P d) (hv : P k v) : kv_inv P (merge_key_value d k v) := by
  intro k1 val1 hmem v1 hv1
  rw [merge_key_value] at hmem
  cases hl : d.lookup k with
  | none =>
    rw [hl] at hmem
    rcases List.mem_append.mp hmem with h | h
    · exact hd k1 val1 h v1 hv1
    · simp at h
      rcases h with ⟨hk1, hval1⟩
      subst hk1
      subst hval1
      simp [kv_values] at hv1
      subst hv1
      exact hv
  | some val0 =>
    rw [hl] at hmem
    cases val0 with
    | singleVal x =>
      by_cases hx : x == v
      · simp [hx] at hmem
        exact hd k1 val1 hmem v1 hv1
      · simp [hx] at hmem
        rcases dict_set_mem hmem with h | ⟨hk1, hval1⟩
        · exact hd k1 val1 h v1 hv1
        · subst hk1
          subst hval1
          simp [kv_values] at hv1
          rcases hv1 with hv1 | hv1
          · subst hv1
            exact hd k1 (.singleVal v1) (lookup_mem hl) v1 (by simp [kv_values])
          · subst hv1
            exact hv
    | listVal xs =>
      rcases dict_set_mem hmem with h | ⟨hk1, hval1⟩
      · exact hd k1 val1 h v1 hv1
      · subst hk1
        subst hval1
        simp [kv_values] at hv1
        rcases hv1 with hv1 | hv1
        · exact hd k1 (.listVal xs) (lookup_mem hl) v1 (by simpa [kv_values])
        · subst hv1
          exact hv

theorem process_row_inv {rows : List XML} {row : XML} {d : List (String × KVVal)}
    (hd : kv_inv (fun k v => ∃ r ∈ rows, row_contributes r k v) d)
    (hrow : row ∈ rows) :
    kv_inv (fun k v => ∃ r ∈ rows, row_contributes r k v) (process_row d row) := by
  rw [process_row]
  by_cases h1 : (cells_of row).isEmpty
  · simpa [h1] using hd
  · simp only [h1]
    by_cases h2 : is_header_row row
    · simpa [h2] using hd
    · simp only [h2]
      by_cases h3 : (cells_of row).length < 2
      · simpa [h3] using hd
      · simp only [h3]
        cases hc : cells_of row with
        | nil => simpa using hd
        | cons k rest =>
          cases rest with
          | nil =>
            rw [hc] at h3
            simp at h3
          | cons v rest2 =>
            simp only []
            by_cases hk : k = ""
            · simpa [hk] using hd
            · simp only [hk, if_neg hk]
              apply merge_key_value_inv hd
              refine ⟨row, hrow, ?_, ?_, ?_, ?_⟩
              · rw [hc]; simp
              · simpa using h2
              · rw [hc]; rfl
              · rw [hc]; simp

theorem foldl_process_row_inv {all : List XML} :
    ∀ (rows : List XML), (∀ r ∈ rows, r ∈ all) →
      ∀ d, kv_inv (fun k v => ∃ r ∈ all, row_contributes r k v) d →
        kv_inv (fun k v => ∃ r ∈ all, row_contributes r k v) (rows.foldl process_row d) := by
  intro rows
  induction rows with
  | nil => intro _ d hd; simpa using hd
  | cons r rest ih =>
    intro hsub d hd
    rw [List.foldl_cons]
    exact ih (fun x hx => hsub x (List.mem_cons_of_mem _ hx))
      (process_row d r) (process_row_inv hd (hsub r (List.mem_cons_self _ _)))

theorem table_kv_inv (tbl : XML) :
    kv_inv (fun k v => ∃ r ∈ findall_tr tbl, row_contributes r k v) (table_kv tbl) := by
  rw [table_kv]
  exact foldl_process_row_inv (findall_tr tbl) (fun r hr => hr) []
    (by intro k val h; simp at h)

/-- CLAIM C3: every binding of every returned table's key/value mapping
comes only from rows with at least two cells and no header cell, the key
being the first cell's normalized text and each value a second cell's
normalized text of such a row; tables with an empty mapping never appear
in the result. -/
theorem claim_C3_header_rows_never_contribute
    (root : XML) (t : TableData) (ht : t ∈ extract_tables root) :
    t.key_value ≠ [] ∧
    ∃ node ∈ iter_elems root, str_lower (strip_tag node.tag) = "table" ∧
      t.key_value = table_kv node ∧
      ∀ k val, (k, val) ∈ t.key_value → ∀ v ∈ kv_values val,
        ∃ row ∈ findall_tr node, row_contributes row k v := by
  rw [extract_tables] at ht
  rcases List.mem_filterMap.mp ht with ⟨node, hnode, hf⟩
  by_cases htag : str_lower (strip_tag node.tag) == "table"
  · rw [if_pos htag] at hf
    by_cases hkv : (table_kv node).isEmpty
    · rw [if_pos hkv] at hf
      exact absurd hf (by simp)
    · rw [if_neg hkv] at hf
      have ht2 : t.key_value = table_kv node := by
        rw [← Option.some_inj.mp hf]
      constructor
      · rw [ht2]
        simpa [List.isEmpty_iff] using hkv
      · refine ⟨node, hnode, by simpa using htag, ht2, ?_⟩
        intro k val hmem v hv
        rw [ht2] at hmem
        exact table_kv_inv node k val hmem v hv
  · rw [if_neg htag] at hf
    exact absurd hf (by simp)

def text_elem (t s : String) : XML := XML.elem t [] (some s) [] none

def data_row (k v : String) : XML :=
  XML.elem "tr" [] none [text_elem "td" k, text_elem "td" v] none

/-- A table whose first row is a header row and whose second is a data
row, inside a synthetic root. -/
def c3_table : XML :=
  XML.elem "table" [] none
    [XML.elem "tr" [] none [text_elem "th" "Key", text_elem "th" "Value"] none,
     data_row "K" "V"] none

def c3_root : XML := XML.elem "root" [] none [c3_table] none

/-- Witness for C3 at a concrete table with one header row and one data
row. -/
theorem claim_C3_witness :
    (TableData.mk [("K", KVVal.singleVal "V")]).key_value ≠ [] ∧
    ∃ node ∈ iter_elems c3_root, str_lower (strip_tag node.tag) = "table" ∧
      (TableData.mk [("K", KVVal.singleVal "V")]).key_value = table_kv node ∧
      ∀ k val, (k, val) ∈ (TableData.mk [("K", KVVal.singleVal "V")]).key_value →
        ∀ v ∈ kv_values val, ∃ row ∈ findall_tr node, row_contributes row k v :=
  claim_C3_header_rows_never_contribute c3_root (TableData.mk [("K", KVVal.singleVal "V")])
    (by decide)

theorem process_row_id {row : XML}
    (h : (cells_of row).head? = some "" ∨ is_header_row row = true ∨
      (cells_of row).length < 2) :
    ∀ d, process_row d row = d := by
  intro d
  rw [process_row]
  by_cases h1 : (cells_of row).isEmpty
  · simp [h1]
  · simp only [h1]
    by_cases h2 : is_header_row row
    · simp [h2]
    · simp only [h2]
      by_cases h3 : (cells_of row).length < 2
      · simp [h3]
      · simp only [h3]
        cases hc : cells_of row with
        | nil => simp
        | cons k rest =>
          cases rest with
          | nil => simp
          | cons v rest2 =>
            have hk : k = "" := by
              rcases h with h | h | h
              · rw [hc] at h
                simpa using h
              · exact absurd h (by simpa using h2)
              · exact absurd h h3
            simp [hk]

/-- CLAIM C10: a row whose normalized first-cell text is empty contributes
nothing to the mapping even when it otherwise qualifies; a table whose
rows all fail to contribute (empty first cell, header cell, or fewer than
two cells) has an empty mapping; and no table with an empty mapping
appears in the extraction result. -/
theorem claim_C10_empty_first_cell_contributes_nothing :
    (∀ (d : List (String × KVVal)) (row : XML),
      is_header_row row = false → 2 ≤ (cells_of row).length →
      (cells_of row).head? = some "" → process_row d row = d) ∧
    (∀ tbl : XML,
      (∀ row ∈ findall_tr tbl, (cells_of row).head? = some "" ∨
        is_header_row row = true ∨ (cells_of row).length < 2) →
      table_kv tbl = []) ∧
    (∀ (root : XML) (t : TableData), t ∈ extract_tables root → t.key_value ≠ []) := by
  refine ⟨?_, ?_, ?_⟩
  · intro d row _ _ hhead
    exact process_row_id (Or.inl hhead) d
  · intro tbl hrows
    rw [table_kv]
    have : ∀ (rows : List XML), (∀ r ∈ rows, r ∈ findall_tr tbl) →
        rows.foldl process_row [] = [] := by
      intro rows
      induction rows with
      | nil => intro _; rfl
      | cons r rest ih =>
        intro hsub
        rw [List.foldl_cons, process_row_id (hrows r (hsub r (List.mem_cons_self _ _)))]
        exact ih (fun x hx => hsub x (List.mem_cons_of_mem _ hx))
    exact this (findall_tr tbl) (fun r hr => hr)
  · intro root t ht
    rw [extract_tables] at ht
    rcases List.mem_filterMap.mp ht with ⟨node, _, hf⟩
    by_cases htag : str_lower (strip_tag node.tag) == "table"
    · rw [if_pos htag] at hf
      by_cases hkv : (table_kv node).isEmpty
      · rw [if_pos hkv] at hf
        exact absurd hf (by simp)
      · rw [if_neg hkv] at hf
        rw [← Option.some_inj.mp hf]
        simpa [List.isEmpty_iff] using hkv
    · rw [if_neg htag] at hf
      exact absurd hf (by simp)

/-- A table whose only rows have an empty first cell or a header cell. -/
def c10_table : XML :=
  XML.elem "table" [] none
    [data_row "" "V1",
     XML.elem "tr" [] none [text_elem "th" "H", text_elem "td" "V2"] none] none

/-- Witness for C10 at an otherwise-qualifying row with empty first cell
and at a table made only of non-contributing rows. -/
theorem claim_C10_witness :
    process_row [("a", KVVal.singleVal "b")] (data_row "" "V1")
      = [("a", KVVal.singleVal "b")] ∧
    table_kv c10_table = [] ∧
    (TableData.mk [("K", KVVal.singleVal "V")]).key_value ≠ [] :=
  ⟨claim_C10_empty_first_cell_contributes_nothing.1 [("a", KVVal.singleVal "b")]
      (data_row "" "V1") (by decide) (by decide) (by decide),
   claim_C10_empty_first_cell_contributes_nothing.2.1 c10_table (by decide),
   claim_C10_empty_first_cell_contributes_nothing.2.2 c3_root
      (TableData.mk [("K", KVVal.singleVal "V")]) (by decide)⟩

/-- Merging a sequence of values for one key, as `_extract_tables` does
row by row. -/
def merge_run (d : List (String × KVVal)) (k : String) (vs : List String) :
    List (String × KVVal) :=
  vs.foldl (fun acc v => merge_key_value acc k v) d

/-- The claim's reading of duplicate handling: distinct values in first
encounter order. -/
def dedup_keep_first (vs : List String) : List String :=
  vs.foldl (fun acc v => if acc.contains v then acc else acc ++ [v]) []

/-- A table binding the same key to x, then y, then x again. -/
def c4_table : XML :=
  XML.elem "table" [] none
    [data_row "k" "x", data_row "k" "y", data_row "k" "x"] none

/-- COUNTEREXAMPLE to C4: the code keeps the duplicate (x, y, x — not
x, y): once a key's value is a list, `_merge_key_value` appends without
any equality check, so the accumulated values are not the distinct values
in first-encounter order. -/
theorem claim_C4_counterexample :
    table_kv c4_table = [("k", KVVal.listVal ["x", "y", "x"])] ∧
    dedup_keep_first ["x", "y", "x"] = ["x", "y"] ∧
    KVVal.listVal ["x", "y", "x"] ≠ KVVal.listVal (dedup_keep_first ["x", "y", "x"]) := by
  refine ⟨rfl, rfl, ?_⟩
  decide

theorem merge_run_listVal (k : String) (xs : List String) :
    ∀ vs, merge_run [(k, KVVal.listVal xs)] k vs = [(k, KVVal.listVal (xs ++ vs))] := by
  intro vs
  induction vs generalizing xs with
  | nil => simp [merge_run]
  | cons w vs2 ih =>
    rw [merge_run, List.foldl_cons]
    have hm : merge_key_value [(k, KVVal.listVal xs)] k w
        = [(k, KVVal.listVal (xs ++ [w]))] := by
      rw [merge_key_value]
      simp [List.lookup, dict_set]
    rw [hm]
    have := ih (xs ++ [w])
    rw [merge_run] at this
    rw [this]
    simp

theorem merge_run_singleVal (k v : String) :
    ∀ vs, merge_run [(k, KVVal.singleVal v)] k vs
      = [(k, if vs.dropWhile (fun x => x == v) = [] then KVVal.singleVal v
             else KVVal.listVal (v :: vs.dropWhile (fun x => x == v)))] := by
  intro vs
  induction vs with
  | nil => simp [merge_run]
  | cons w vs2 ih =>
    rw [merge_run, List.foldl_cons]
    by_cases hw : w = v
    · have hm : merge_key_value [(k, KVVal.singleVal v)] k w
          = [(k, KVVal.singleVal v)] := by
        rw [merge_key_value]
        simp [List.lookup, hw]
      rw [hm]
      rw [merge_run] at ih
      rw [ih]
      simp [List.dropWhile, hw]
    · have hm : merge_key_value [(k, KVVal.singleVal v)] k w
          = [(k, KVVal.listVal [v, w])] := by
        rw [merge_key_value]
        simp [List.lookup, dict_set]
        intro hvw
        exact absurd hvw.symm hw
      rw [hm]
      have h2 := merge_run_listVal k [v, w] vs2
      rw [merge_run] at h2
      rw [h2]
      have hd : (w :: vs2).dropWhile (fun x => x == v) = w :: vs2 := by
        rw [List.dropWhile_cons]
        simp [hw]
      rw [hd]
      simp

/-- CLAIM C4 (amended): within one table, merging the value sequence
v, vs for one key binds the key to the single value v while every merged
value still equals v, and otherwise to the list made of v followed by
every later value from the first one differing from v on, appended in
encounter order without any further duplicate check. -/
theorem claim_C4_duplicates_append_after_first_divergence (k v : String) (vs : List String) :
    merge_run [] k (v :: vs)
      = [(k, if vs.dropWhile (fun x => x == v) = [] then KVVal.singleVal v
             else KVVal.listVal (v :: vs.dropWhile (fun x => x == v)))] := by
  rw [merge_run, List.foldl_cons]
  have h0 : merge_key_value [] k v = [(k, KVVal.singleVal v)] := by
    rw [merge_key_value]
    simp [List.lookup]
  rw [h0]
  have := merge_run_singleVal k v vs
  rw [merge_run] at this
  exact this

/-- Provenance of a collected ticket key: some candidate parameter holds a
truthy value one of whose tokens extracts to exactly this key. -/
def issue_keys_ok (params : List (String × String)) (k : String) : Prop :=
  ∃ nm ∈ issue_key_param_names, ∃ raw, params.lookup nm = some raw ∧ raw ≠ "" ∧
    ∃ tok ∈ split_issue_tokens raw, extract_issue_key tok = some k

theorem add_issue_token_inv {Q : String → Prop} {ks : List String} {tok : String}
    (hn : ks.Nodup) (hq : ∀ k ∈ ks, Q k)
    (hQ : ∀ k, extract_issue_key tok = some k → Q k) :
    (add_issue_token ks tok).Nodup ∧ ∀ k ∈ add_issue_token ks tok, Q k := by
  rw [add_issue_token]
  cases he : extract_issue_key tok with
  | none => exact ⟨hn, hq⟩
  | some k =>
    by_cases hc : ks.contains k
    · simp only [hc, if_pos]
      exact ⟨hn, hq⟩
    · simp only [hc, if_neg, Bool.false_eq_true, not_false_iff]
      have hkm : k ∉ ks := by
        intro hmem
        exact hc (List.elem_iff.mpr hmem)
      constructor
      · rw [List.nodup_append]
        exact ⟨hn, List.nodup_singleton k, by simpa [List.disjoint_singleton] using hkm⟩
      · intro k1 hk1
        rcases List.mem_append.mp hk1 with h | h
        · exact hq k1 h
        · simp at h
          subst h
          exact hQ k1 he

theorem foldl_add_token_inv {Q : String → Prop} :
    ∀ (toks : List String), (∀ t ∈ toks, ∀ k, extract_issue_key t = some k → Q k) →
      ∀ ks, ks.Nodup → (∀ k ∈ ks, Q k) →
        (toks.foldl add_issue_token ks).Nodup ∧
          ∀ k ∈ toks.foldl add_issue_token ks, Q k := by
  intro toks
  induction toks with
  | nil => intro _ ks hn hq; exact ⟨hn, hq⟩
  | cons t rest ih =>
    intro htoks ks hn hq
    rw [List.foldl_cons]
    have step := add_issue_token_inv hn hq (htoks t (List.mem_cons_self _ _))
    exact ih (fun t2 ht2 => htoks t2 (List.mem_cons_of_mem _ ht2))
      (add_issue_token ks t) step.1 step.2

theorem add_issue_param_inv {params : List (String × String)} {cname : String}
    (hc : cname ∈ issue_key_param_names) {ks : List String}
    (hn : ks.Nodup) (hq : ∀ k ∈ ks, issue_keys_ok params k) :
    (add_issue_param params ks cname).Nodup ∧
      ∀ k ∈ add_issue_param params ks cname, issue_keys_ok params k := by
  rw [add_issue_param]
  cases hl : params.lookup cname with
  | none => exact ⟨hn, hq⟩
  | some raw =>
    by_cases hraw : raw = ""
    · simp only [hraw, if_pos]
      exact ⟨hn, hq⟩
    · simp only [hraw, if_neg, not_false_iff]
      exact foldl_add_token_inv (split_issue_tokens raw)
        (fun t ht k hk => ⟨cname, hc, raw, hl, hraw, t, ht, hk⟩) ks hn hq

/-- CLAIM C5: ticket-key extraction from the macro parameters yields
exactly ["PROJ-1", "PROJ-2"] on the spec's example; in general the
collected list has no duplicates and every collected key is the extracted
first pattern match (uppercased) of some delimiter-split token of a truthy
candidate parameter (key/issuekey/issuekeys/issues). -/
theorem claim_C5_issue_key_collection :
    collect_issue_keys_from_params [("key", "PROJ-1, bogus, proj-2")]
      = ["PROJ-1", "PROJ-2"] ∧
    (∀ params : List (String × String), (collect_issue_keys_from_params params).Nodup) ∧
    (∀ (params : List (String × String)) (k : String),
      k ∈ collect_issue_keys_from_params params → issue_keys_ok params k) := by
  have main : ∀ (params : List (String × String)),
      (collect_issue_keys_from_params params).Nodup ∧
        ∀ k ∈ collect_issue_keys_from_params params, issue_keys_ok params k := by
    intro params
    rw [collect_issue_keys_from_params]
    have gen : ∀ (names : List String), (∀ n ∈ names, n ∈ issue_key_param_names) →
        ∀ ks, ks.Nodup → (∀ k ∈ ks, issue_keys_ok params k) →
          (names.foldl (add_issue_param params) ks).Nodup ∧
            ∀ k ∈ names.foldl (add_issue_param params) ks, issue_keys_ok params k := by
      intro names
      induction names with
      | nil => intro _ ks hn hq; exact ⟨hn, hq⟩
      | cons n rest ih =>
        intro hnames ks hn hq
        rw [List.foldl_cons]
        have step := add_issue_param_inv (hnames n (List.mem_cons_self _ _)) hn hq
        exact ih (fun n2 hn2 => hnames n2 (List.mem_cons_of_mem _ hn2))
          (add_issue_param params ks n) step.1 step.2
    exact gen issue_key_param_names (fun n hn => hn) [] List.nodup_nil (by simp)
  exact ⟨rfl, fun params => (main params).1, fun params k hk => (main params).2 k hk⟩

/-- Witness for C5 at the spec's concrete parameter mapping. -/
theorem claim_C5_witness :
    (collect_issue_keys_from_params [("key", "PROJ-1, bogus, proj-2")]).Nodup ∧
    issue_keys_ok [("key", "PROJ-1, bogus, proj-2")] "PROJ-2" :=
  ⟨claim_C5_issue_key_collection.2.1 [("key", "PROJ-1, bogus, proj-2")],
   claim_C5_issue_key_collection.2.2 [("key", "PROJ-1, bogus, proj-2")] "PROJ-2"
     (by decide)⟩

mutual

/-- Headings of a tree in true document order of the heading element
itself (each heading listed with its parent and child index), the order
the claim asserts for heading-section extraction. -/
def doc_headings : XML → List (XML × Nat × XML)
  | .elem t a tx cs tl => doc_headings_children (.elem t a tx cs tl) 0 cs

def doc_headings_children : XML → Nat → List XML → List (XML × Nat × XML)
  | _, _, [] => []
  | p, i, c :: rest =>
    (if is_heading_elem c then [(p, i, c)] else []) ++ doc_headings c ++
      doc_headings_children p (i + 1) rest

end

/-- The claim's reading of heading-section extraction: first matching
heading in document order of the heading elements, collection stopping
exactly and exclusively at a following sibling that is an h1–h6 heading. -/
def extract_heading_section_claimed (root : XML) (title : String) : Option String :=
  let target := str_lower (normalize_text (some title))
  match (doc_headings root).find? (fun pih => heading_norm pih.2.2 == target) with
  | none => none
  | some pih =>
    some (serialize_elements
      (pih.2.2 :: ((pih.1.children.drop (pih.2.1 + 1)).takeWhile (fun s => !(is_heading_elem s)))))

/-- The ET parse of the wrapped markup
`<h1>Overview</h1><p>a</p><h7>x</h7><p>b</p>` (attributes of the synthetic
root elided; they play no role in extraction). -/
def c2_counter_root : XML :=
  XML.elem "root" [] none
    [text_elem "h1" "Overview", text_elem "p" "a",
     text_elem "h7" "x", text_elem "p" "b"] none

/-- COUNTEREXAMPLE to C2: on a document with an `h7` sibling the code
stops collecting at `h7` (any two-character tag starting with `h`), while
the claim's stop condition (heading of levels 1 through 6 only) would
collect through it; so the claimed extraction differs from the code's. -/
theorem claim_C2_counterexample :
    extract_heading_section_root c2_counter_root "Overview"
      = some "<h1>Overview</h1><p>a</p>" ∧
    extract_heading_section_claimed c2_counter_root "Overview"
      = some "<h1>Overview</h1><p>a</p><h7>x</h7><p>b</p>" ∧
    extract_heading_section_root c2_counter_root "Overview"
      ≠ extract_heading_section_claimed c2_counter_root "Overview" := by
  refine ⟨rfl, rfl, ?_⟩
  decide

theorem find?_split {α : Type} (p : α → Bool) :
    ∀ (l : List α) (a : α), l.find? p = some a →
      ∃ l1 l2, l = l1 ++ a :: l2 ∧ ∀ x ∈ l1, p x = false := by
  intro l
  induction l with
  | nil => intro a h; simp [List.find?] at h
  | cons x rest ih =>
    intro a h
    by_cases hp : p x
    · rw [List.find?_cons_of_pos _ hp] at h
      refine ⟨[], rest, ?_, ?_⟩
      · simpa using Option.some_inj.mp h
      · intro y hy; simp at hy
    · rw [List.find?_cons_of_neg _ (by simpa using hp)] at h
      rcases ih a h with ⟨l1, l2, heq, hall⟩
      refine ⟨x :: l1, l2, by rw [heq]; rfl, ?_⟩
      intro y hy
      rcases List.mem_cons.mp hy with hy | hy
      · subst hy; simpa using hp
      · exact hall y hy

theorem dropWhile_head_false {α : Type} (p : α → Bool) :
    ∀ (l : List α) (x : α) (xs : List α), l.dropWhile p = x :: xs → p x = false := by
  intro l
  induction l with
  | nil => intro x xs h; simp [List.dropWhile] at h
  | cons y rest ih =>
    intro x xs h
    rw [List.dropWhile_cons] at h
    by_cases hp : p y
    · rw [if_pos hp] at h
      exact ih x xs h
    · rw [if_neg hp] at h
      rcases List.cons_eq_cons.mp h with ⟨hy, _⟩
      subst hy
      simpa using hp

/-- The heading-section scenario markup of the spec. -/
def c2_example_markup : String :=
  "<h1>Overview</h1><p>text</p><h2>Details</h2><p>more</p>"

/-- The ET parse of the wrapped scenario markup (synthetic root with the
four children; namespace declarations play no role in extraction). -/
def c2_example_root : XML :=
  XML.elem "root" [] none
    [text_elem "h1" "Overview", text_elem "p" "text",
     text_elem "h2" "Details", text_elem "p" "more"] none

/-- CLAIM C2 (amended): on the spec's scenario the extraction returns the
serialized `<h1>` and `<p>text</p>` only; in general, a successful
extraction picks the first title-matching heading in `_iter_headings`
order (parents in depth-first order, then child index — not document order
of the headings themselves), and serializes the heading followed by the
maximal run of following siblings whose namespace-stripped tag is not a
two-character tag starting with `h` (a condition covering h1–h6 but also
e.g. h7 or hr); the sibling after that run, if any, satisfies that stop
condition. -/
theorem claim_C2_heading_section_extraction :
    extract_heading_section (fun _ => some c2_example_root) (some c2_example_markup)
        "Overview" = some "<h1>Overview</h1><p>text</p>" ∧
    ∀ (root : XML) (title out : String),
      extract_heading_section_root root title = some out →
      ∃ parent idx hd,
        (parent, idx, hd) ∈ iter_headings root ∧
        heading_norm hd = str_lower (normalize_text (some title)) ∧
        (∃ l1 l2, iter_headings root = l1 ++ (parent, idx, hd) :: l2 ∧
          ∀ e ∈ l1, heading_norm e.2.2 ≠ str_lower (normalize_text (some title))) ∧
        ∃ taken rest, parent.children.drop (idx + 1) = taken ++ rest ∧
          (∀ s ∈ taken, is_stop_tag s = false) ∧
          (rest = [] ∨ ∃ s rest2, rest = s :: rest2 ∧ is_stop_tag s = true) ∧
          out = serialize_elements (hd :: taken) := by
  constructor
  · rfl
  · intro root title out h
    rw [extract_heading_section_root] at h
    cases hfind : (iter_headings root).find?
        (fun pih => heading_norm pih.2.2 == str_lower (normalize_text (some title))) with
    | none =>
      rw [hfind] at h
      exact absurd h (by simp)
    | some pih =>
      rcases pih with ⟨parent, idx, hd⟩
      rw [hfind] at h
      have hout : out = serialize_elements
          (hd :: ((parent.children.drop (idx + 1)).takeWhile (fun s => !(is_stop_tag s)))) :=
        (Option.some_inj.mp h).symm
      refine ⟨parent, idx, hd, List.mem_of_find?_eq_some hfind, ?_, ?_, ?_⟩
      · have := List.find?_some hfind
        simpa using this
      · rcases find?_split _ _ _ hfind with ⟨l1, l2, heq, hall⟩
        refine ⟨l1, l2, heq, ?_⟩
        intro e he
        have := hall e he
        simpa using this
      · refine ⟨(parent.children.drop (idx + 1)).takeWhile (fun s => !(is_stop_tag s)),
          (parent.children.drop (idx + 1)).dropWhile (fun s => !(is_stop_tag s)),
          (List.takeWhile_append_dropWhile _ _).symm, ?_, ?_, hout⟩
        · intro s hs
          have := List.mem_takeWhile_imp hs
          simpa using this
        · cases hrest : (parent.children.drop (idx + 1)).dropWhile
              (fun s => !(is_stop_tag s)) with
          | nil => exact Or.inl rfl
          | cons s rest2 =>
            refine Or.inr ⟨s, rest2, rfl, ?_⟩
            have := dropWhile_head_false _ _ _ _ hrest
            simpa using this

/-- Witness for the general part of the amended C2 at the scenario tree. -/
theorem claim_C2_witness :
    ∃ parent idx hd,
      (parent, idx, hd) ∈ iter_headings c2_example_root ∧
      heading_norm hd = str_lower (normalize_text (some "Overview")) ∧
      (∃ l1 l2, iter_headings c2_example_root = l1 ++ (parent, idx, hd) :: l2 ∧
        ∀ e ∈ l1, heading_norm e.2.2 ≠ str_lower (normalize_text (some "Overview"))) ∧
      ∃ taken rest, parent.children.drop (idx + 1) = taken ++ rest ∧
        (∀ s ∈ taken, is_stop_tag s = false) ∧
        (rest = [] ∨ ∃ s rest2, rest = s :: rest2 ∧ is_stop_tag s = true) ∧
        "<h1>Overview</h1><p>text</p>" = serialize_elements (hd :: taken) :=
  claim_C2_heading_section_extraction.2 c2_example_root "Overview"
    "<h1>Overview</h1><p>text</p>" rfl

/-- A client whose upstream field list maps display name `Team` to
`customfield_100`, with an empty resolution cache. -/
def c6_client : JiraClientState :=
  JiraClientState.mk [FieldEntry.mk (some "Team") (some "customfield_100")] []

/-- An issue whose field mapping holds `customfield_100` but not the
display name `Team`. -/
def c6_fields : List (String × String) := [("customfield_100", "ALPHA")]

/-- CLAIM C6: field access checks the issue's own mapping for the literal
name first; the concrete scenario resolves `Team` through the lazily
populated lower-cased name-to-id cache and returns the value under
`customfield_100`; and when the literal name is absent and the resolved id
is falsy or absent from the mapping, the access fails with
field-not-found. -/
theorem claim_C6_field_access_by_display_name :
    (∀ (st : JiraClientState) (fields : List (String × String)) (ik fn v : String),
      fields.lookup fn = some v → jira_issue_get st fields ik fn = (Except.ok v, st)) ∧
    jira_issue_get c6_client c6_fields "K-1" "Team"
      = (Except.ok "ALPHA",
         JiraClientState.mk c6_client.field_list [("team", "customfield_100")]) ∧
    (∀ (st : JiraClientState) (fields : List (String × String)) (ik fn : String),
      fields.lookup fn = none →
      (∀ fid, opt_truthy (resolve_field_id st fn).1 = some fid →
        fields.lookup fid = none) →
      (jira_issue_get st fields ik fn).1
        = Except.error (JiraErr.fieldNotFound fn ik)) := by
  refine ⟨?_, rfl, ?_⟩
  · intro st fields ik fn v hlook
    rw [jira_issue_get, hlook]
  · intro st fields ik fn hnone habs
    cases hres : opt_truthy (resolve_field_id st fn).1 with
    | none => simp [jira_issue_get, hnone, hres]
    | some fid => simp [jira_issue_get, hnone, hres, habs fid hres]

/-- Witness for C6: the literal-name path and the not-found path at
concrete inputs. -/
theorem claim_C6_witness :
    jira_issue_get c6_client [("Team", "VAL")] "K-1" "Team"
      = (Except.ok "VAL", c6_client) ∧
    (jira_issue_get c6_client [] "K-1" "Nothing").1
      = Except.error (JiraErr.fieldNotFound "Nothing" "K-1") :=
  ⟨claim_C6_field_access_by_display_name.1 c6_client [("Team", "VAL")] "K-1" "Team" "VAL"
      (by decide),
   claim_C6_field_access_by_display_name.2.2 c6_client [] "K-1" "Nothing" (by decide)
      (fun fid _ => rfl)⟩

/-- The world after the single status fetch `transition_issue` always
performs. -/
def world_after_get (w : JiraWorld) : JiraWorld :=
  JiraWorld.mk w.issueStatus w.transitions w.applyTransition (w.log ++ [JReq.reqGetIssue])

/-- CLAIM C7: when a truthy required status mismatches the current status
case-insensitively, or the current status already equals the target
case-insensitively, the service returns (before, before, changed=False),
the issue's status is unchanged, and the only request issued is the status
fetch (in particular no transition request). -/
theorem claim_C7_skip_paths_issue_no_transition
    (w : JiraWorld) (ik : String) (required : Option String) (target : String)
    (h : (∃ r, opt_truthy required = some r ∧
            str_lower (w.issueStatus.getD "") ≠ str_lower r) ∨
         str_lower (w.issueStatus.getD "") = str_lower target) :
    service_transition_issue w ik required target
      = .ok ((w.issueStatus.getD "", w.issueStatus.getD "", false), world_after_get w) ∧
    (world_after_get w).issueStatus = w.issueStatus ∧
    ∀ r ∈ (world_after_get w).log, r ∈ w.log ∨ r = JReq.reqGetIssue := by
  refine ⟨?_, rfl, ?_⟩
  · rcases h with ⟨r, hr, hne⟩ | heq
    · have hskip : (match opt_truthy required with
          | some r0 => str_lower (w.issueStatus.getD "") != str_lower r0
          | none => false) = true := by
        rw [hr]
        simpa [bne_iff_ne] using hne
      simp [service_transition_issue, hskip, world_get_issue, world_after_get]
    · cases hskip : (match opt_truthy required with
          | some r0 => str_lower (w.issueStatus.getD "") != str_lower r0
          | none => false) with
      | true => simp [service_transition_issue, hskip, world_get_issue, world_after_get]
      | false =>
        have heq2 : (str_lower (w.issueStatus.getD "")
            == str_lower target) = true := by
          simpa using heq
        simp [service_transition_issue, hskip, heq2, world_get_issue, world_after_get]
  · intro r hr
    rw [world_after_get] at hr
    simp at hr
    rcases hr with hr | hr
    · exact Or.inl hr
    · exact Or.inr hr

/-- An issue currently In Progress, with no transitions needed for the
skip path. -/
def c7_world : JiraWorld :=
  JiraWorld.mk (some "In Progress") [] (fun _ => none) []

/-- Witness for C7: requiredStatus Open on an issue currently In Progress
returns (In Progress, In Progress, False) with only the fetch logged. -/
theorem claim_C7_witness :
    service_transition_issue c7_world "K-9" (some "Open") "Done"
      = .ok (("In Progress", "In Progress", false), world_after_get c7_world) ∧
    (world_after_get c7_world).issueStatus = c7_world.issueStatus ∧
    ∀ r ∈ (world_after_get c7_world).log, r ∈ c7_world.log ∨ r = JReq.reqGetIssue :=
  claim_C7_skip_paths_issue_no_transition c7_world "K-9" (some "Open") "Done"
    (Or.inl ⟨"Open", rfl, by decide⟩)

/-- The claim's reading of the transition match: the entry's name OR its
destination-status name matches the target case-insensitively. -/
def claim_transition_match (e : TransitionEntry) (target : String) : Bool :=
  (match e.name with
    | some n => str_lower n == str_lower target
    | none => false) ||
  (match e.toName with
    | some n => str_lower n == str_lower target
    | none => false)

/-- A world whose only transition is named Begin with destination
In Progress. -/
def c8_world : JiraWorld :=
  JiraWorld.mk (some "Open")
    [TransitionEntry.mk (some "5") (some "Begin") (some "In Progress")]
    (fun _ => some "In Progress") []

/-- COUNTEREXAMPLE to C8: a transition whose destination-status name
matches the target but whose name does not matches under the claim's
name-or-destination rule, yet the code consults the destination name only
when the name is falsy, so it raises no-such-transition instead of
transitioning. -/
theorem claim_C8_counterexample :
    (c8_world.transitions.any (fun e => claim_transition_match e "In Progress")) = true ∧
    client_transition_issue c8_world "K-1" "In Progress"
      = .error (no_transition_msg "K-1" "In Progress",
          JiraWorld.mk c8_world.issueStatus c8_world.transitions
            c8_world.applyTransition [JReq.reqGetTransitions]) :=
  ⟨rfl, rfl⟩

/-- CLAIM C8 (amended): the transition chosen is the first whose effective
name (the name when truthy, else the destination-status name) matches the
target case-insensitively; when no entry matches, or the first matching
entry's id is falsy, the call fails with no-such-transition and no
transition request is issued; the first-match semantics is that of
`List.find?`. -/
theorem claim_C8_first_effective_name_match (w : JiraWorld) (ik target : String) :
    (w.transitions.find? (fun e => code_transition_match e target) = none →
      client_transition_issue w ik target
        = .error (no_transition_msg ik target,
            JiraWorld.mk w.issueStatus w.transitions w.applyTransition
              (w.log ++ [JReq.reqGetTransitions]))) ∧
    (∀ e, w.transitions.find? (fun e2 => code_transition_match e2 target) = some e →
      (opt_truthy e.id = none →
        client_transition_issue w ik target
          = .error (no_transition_msg ik target,
              JiraWorld.mk w.issueStatus w.transitions w.applyTransition
                (w.log ++ [JReq.reqGetTransitions]))) ∧
      (∀ tid, opt_truthy e.id = some tid →
        client_transition_issue w ik target
          = .ok (JiraWorld.mk (w.applyTransition tid) w.transitions w.applyTransition
              (w.log ++ [JReq.reqGetTransitions] ++ [JReq.reqPostTransition tid])))) ∧
    (∀ l1 e l2, w.transitions = l1 ++ e :: l2 → code_transition_match e target = true →
      (∀ x ∈ l1, code_transition_match x target = false) →
      w.transitions.find? (fun e2 => code_transition_match e2 target) = some e) := by
  refine ⟨?_, ?_, ?_⟩
  · intro hfind
    simp [client_transition_issue, hfind]
  · intro e hfind
    constructor
    · intro hid
      simp [client_transition_issue, hfind, hid]
    · intro tid hid
      simp [client_transition_issue, hfind, hid]
  · intro l1 e l2 heq hmatch hall
    rw [heq]
    have : ∀ (pre : List TransitionEntry), (∀ x ∈ pre, code_transition_match x target = false) →
        (pre ++ e :: l2).find? (fun e2 => code_transition_match e2 target) = some e := by
      intro pre
      induction pre with
      | nil =>
        intro _
        rw [List.nil_append]
        exact List.find?_cons_of_pos _ (by simpa using hmatch)
      | cons x rest ih =>
        intro hp
        rw [List.cons_append, List.find?_cons_of_neg, ih]
        · intro y hy
          exact hp y (List.mem_cons_of_mem _ hy)
        · simp [hp x (List.mem_cons_self _ _)]
    exact this l1 hall

/-- A world with no transitions at all. -/
def c8_empty_world : JiraWorld :=
  JiraWorld.mk (some "Open") [] (fun _ => none) []

/-- A world with one transition named Done carrying id 7. -/
def c8_ok_world : JiraWorld :=
  JiraWorld.mk (some "Open") [TransitionEntry.mk (some "7") (some "Done") none]
    (fun _ => some "Done") []

/-- Witness for the amended C8 at concrete worlds: failure without a match,
success through the first match's id, and the first-match
characterization. -/
theorem claim_C8_witness :
    client_transition_issue c8_empty_world "K-1" "Done"
      = .error (no_transition_msg "K-1" "Done",
          JiraWorld.mk c8_empty_world.issueStatus c8_empty_world.transitions
            c8_empty_world.applyTransition
            (c8_empty_world.log ++ [JReq.reqGetTransitions])) ∧
    client_transition_issue c8_ok_world "K-1" "Done"
      = .ok (JiraWorld.mk (c8_ok_world.applyTransition "7") c8_ok_world.transitions
          c8_ok_world.applyTransition
          (c8_ok_world.log ++ [JReq.reqGetTransitions] ++ [JReq.reqPostTransition "7"])) ∧
    c8_ok_world.transitions.find? (fun e2 => code_transition_match e2 "Done")
      = some (TransitionEntry.mk (some "7") (some "Done") none) :=
  ⟨(claim_C8_first_effective_name_match c8_empty_world "K-1" "Done").1 rfl,
   ((claim_C8_first_effective_name_match c8_ok_world "K-1" "Done").2.1
      (TransitionEntry.mk (some "7") (some "Done") none) (by decide)).2 "7" rfl,
   (claim_C8_first_effective_name_match c8_ok_world "K-1" "Done").2.2 []
      (TransitionEntry.mk (some "7") (some "Done") none) [] rfl (by decide)
      (by intro x hx; simp at hx)⟩

/-- An upstream that always answers with two entries and a next link,
ignoring the requested batch size. -/
def c9_overfull_fetch : Nat → Nat → ChildResp Nat :=
  fun _ _ => ChildResp.mk [0, 1] true

/-- COUNTEREXAMPLE to C9: with limit 1 and an upstream response carrying
two entries, the loop appends the whole response and returns two entries,
not only the first `limit` entries. -/
theorem claim_C9_counterexample :
    get_child_pages c9_overfull_fetch 50 1 = [0, 1] ∧
    1 < (get_child_pages c9_overfull_fetch 50 1).length := by
  have h : get_child_pages c9_overfull_fetch 50 1 = [0, 1] := by
    simp [get_child_pages, get_child_pages_go, c9_overfull_fetch]
  exact ⟨h, by rw [h]; decide⟩

theorem go_length_le {α : Type} (fetch : Nat → Nat → ChildResp α)
    (pageSize limit : Nat) (hf : ∀ s b, (fetch s b).results.length ≤ b) :
    ∀ (n start : Nat) (collected : List α), limit - collected.length ≤ n →
      collected.length ≤ limit →
      (get_child_pages_go fetch pageSize limit start collected).length ≤ limit := by
  intro n
  induction n with
  | zero =>
    intro start collected hm hle
    rw [get_child_pages_go, dif_pos (by omega)]
    exact hle
  | succ n ih =>
    intro start collected hm hle
    by_cases hstop : limit ≤ collected.length
    · rw [get_child_pages_go, dif_pos hstop]
      exact hle
    · rw [get_child_pages_go, dif_neg hstop]
      show (if _h2 : (fetch start (min pageSize (limit - collected.length))).results.isEmpty
              || !(fetch start (min pageSize (limit - collected.length))).next
            then collected ++ (fetch start (min pageSize (limit - collected.length))).results
            else get_child_pages_go fetch pageSize limit
              (start + (fetch start (min pageSize (limit - collected.length))).results.length)
              (collected ++
                (fetch start (min pageSize (limit - collected.length))).results)).length
          ≤ limit
      have hr := hf start (min pageSize (limit - collected.length))
      by_cases h2 : ((fetch start (min pageSize (limit - collected.length))).results.isEmpty
          || !(fetch start (min pageSize (limit - collected.length))).next) = true
      · rw [dif_pos h2, List.length_append]
        omega
      · rw [dif_neg h2]
        apply ih
        · rw [List.length_append]
          have hne : (fetch start (min pageSize (limit - collected.length))).results ≠ [] := by
            intro hh
            apply h2
            simp [hh]
          have hpos := List.length_pos.mpr hne
          omega
        · rw [List.length_append]
          omega

theorem go_serve_children (L : List Nat) (pageSize : Nat) (hps : 0 < pageSize)
    (limit : Nat) :
    ∀ (n k : Nat), limit - k ≤ n → k ≤ limit → k ≤ L.length →
      get_child_pages_go (serve_children L) pageSize limit k (L.take k) = L.take limit := by
  intro n
  induction n with
  | zero =>
    intro k hm hk1 hk2
    rw [get_child_pages_go, dif_pos (by rw [List.length_take]; omega)]
    rw [le_antisymm hk1 (by omega)]
  | succ n ih =>
    intro k hm hk1 hk2
    by_cases hstop : limit ≤ k
    · rw [get_child_pages_go, dif_pos (by rw [List.length_take]; omega)]
      rw [le_antisymm hk1 hstop]
    · rw [get_child_pages_go, dif_neg (by rw [List.length_take]; omega)]
      have hlen : (L.take k).length = k := by rw [List.length_take]; omega
      rw [hlen]
      show (if _h2 : (serve_children L k (min pageSize (limit - k))).results.isEmpty
              || !(serve_children L k (min pageSize (limit - k))).next
            then L.take k ++ (serve_children L k (min pageSize (limit - k))).results
            else get_child_pages_go (serve_children L) pageSize limit
              (k + (serve_children L k (min pageSize (limit - k))).results.length)
              (L.take k ++ (serve_children L k (min pageSize (limit - k))).results))
          = L.take limit
      have hres : (serve_children L k (min pageSize (limit - k))).results
          = (L.drop k).take (min pageSize (limit - k)) := rfl
      have hnext : (serve_children L k (min pageSize (limit - k))).next
          = decide (k + min pageSize (limit - k) < L.length) := rfl
      have hreslen : (serve_children L k (min pageSize (limit - k))).results.length
          = min (min pageSize (limit - k)) (L.length - k) := by
        rw [hres, List.length_take, List.length_drop]
      have hcoll : L.take k ++ (serve_children L k (min pageSize (limit - k))).results
          = L.take (k + min pageSize (limit - k)) := by
        rw [hres, List.take_add]
      by_cases hend : L.length ≤ k
      · have hdrop : L.drop k = [] := List.drop_eq_nil_of_le hend
        have hempty : (serve_children L k (min pageSize (limit - k))).results.isEmpty
            = true := by
          rw [hres, hdrop]
          simp
        rw [dif_pos (by rw [hempty]; simp)]
        rw [hres, hdrop]
        simp only [List.take_nil, List.append_nil]
        rw [List.take_of_length_le hend, List.take_of_length_le (by omega)]
      · have hne2 : (serve_children L k (min pageSize (limit - k))).results ≠ [] := by
          intro hh
          rw [hh] at hreslen
          simp at hreslen
          omega
        have hempty2 : (serve_children L k (min pageSize (limit - k))).results.isEmpty
            = false := by
          rw [Bool.eq_false_iff]
          intro hh
          exact hne2 (List.isEmpty_iff.mp hh)
        by_cases hmore : k + min pageSize (limit - k) < L.length
        · have hcond : ((serve_children L k (min pageSize (limit - k))).results.isEmpty
              || !(serve_children L k (min pageSize (limit - k))).next) = false := by
            rw [hempty2, hnext]
            simp [hmore]
          rw [dif_neg (by rw [hcond]; simp)]
          have hrl : (serve_children L k (min pageSize (limit - k))).results.length
              = min pageSize (limit - k) := by
            rw [hreslen]
            omega
          rw [hcoll, hrl]
          exact ih (k + min pageSize (limit - k)) (by omega) (by omega) (by omega)
        · have hcond : ((serve_children L k (min pageSize (limit - k))).results.isEmpty
              || !(serve_children L k (min pageSize (limit - k))).next) = true := by
            rw [hempty2, hnext]
            simp [hmore]
          rw [dif_pos hcond, hcoll]
          rw [List.take_of_length_le (by omega), List.take_of_length_le (by omega)]

/-- CLAIM C9 (amended): provided every upstream response returns at most
the requested batch size of entries, the collected child list never
exceeds the caller-supplied limit; and for an upstream serving a fixed
list with correct next links, the result is exactly the first `limit`
entries even when more exist upstream. -/
theorem claim_C9_pagination_caps_at_limit :
    (∀ (α : Type) (fetch : Nat → Nat → ChildResp α) (pageSize limit : Nat),
      (∀ s b, (fetch s b).results.length ≤ b) →
      (get_child_pages fetch pageSize limit).length ≤ limit) ∧
    (∀ (L : List Nat) (pageSize limit : Nat), 0 < pageSize →
      get_child_pages (serve_children L) pageSize limit = L.take limit) := by
  constructor
  · intro α fetch pageSize limit hf
    rw [get_child_pages]
    exact go_length_le fetch pageSize limit hf limit 0 [] (by simp) (by simp)
  · intro L pageSize limit hps
    rw [get_child_pages]
    have := go_serve_children L pageSize hps limit limit 0 (by omega) (by omega) (by omega)
    simpa using this

/-- Witness for the amended C9: a bounded upstream stays within the limit,
and the fixed-list upstream of five entries truncated at limit three. -/
theorem claim_C9_witness :
    (get_child_pages (serve_children [10, 20, 30, 40, 50]) 2 3).length ≤ 3 ∧
    get_child_pages (serve_children [10, 20, 30, 40, 50]) 2 3 = [10, 20, 30] :=
  ⟨claim_C9_pagination_caps_at_limit.1 Nat (serve_children [10, 20, 30, 40, 50]) 2 3
      (fun s b => by simp [serve_children]),
   by
    rw [claim_C9_pagination_caps_at_limit.2 [10, 20, 30, 40, 50] 2 3 (by decide)]
    rfl⟩
